/-
  Verification of the 112Travel recommendation engine (src/app.py).

  The engine is shallowly embedded: trips, the planned-country list and the
  country→cities catalog are plain inputs, and `apiSuggestions` mirrors the
  body of the `/api/suggestions` handler.  The TF-IDF vectorizer and cosine
  similarity come from an external library (scikit-learn) and are modelled
  from the spec over ℝ.
-/
import Mathlib

set_option linter.unusedVariables false

/-! ## Data model -/

/-- A stored trip, as read by `api_suggestions` (src/app.py lines 55-72):
country, city list, free-text notes, companion list.  Dates and timestamps
play no role in the engine and are omitted. -/
structure Trip where
  country : String
  cities : List String
  notes : String
  companions : List String
deriving DecidableEq, Repr

/-- Python's `str.strip()`: drop leading and trailing whitespace.  (Defined
structurally over the character list so concrete instances reduce.) -/
def strip (s : String) : String :=
  ⟨(((s.data.dropWhile Char.isWhitespace).reverse).dropWhile Char.isWhitespace).reverse⟩

/-- The preference document of one trip (src/app.py lines 247-254):
`" ".join([country.strip(), " ".join(cities), notes.strip(), " ".join(companions)]).strip()`. -/
def tripDoc (t : Trip) : String :=
  strip (String.intercalate (" ")
    [strip t.country, String.intercalate (" ") t.cities, strip t.notes,
      String.intercalate (" ") t.companions])

/-- The profile-builder loop (src/app.py lines 245-256): one document per
trip, in trip order, keeping only documents that are non-empty after the
final strip. -/
def visitedDocs : List Trip → List String
  | [] => []
  | t :: ts =>
      let doc := tripDoc t
      if doc ≠ "" then doc :: visitedDocs ts else visitedDocs ts

/-- Python's `country_cities.get(country, [])` (src/app.py line 271): first
binding of the country in the catalog mapping, defaulting to the empty city
list. -/
def catalogGet (catalog : List (String × List String)) (co : String) : List String :=
  (catalog.lookup co).getD []

/-- A scoring candidate (src/app.py line 272): country, city and the text
document `f"{country} {city}"`. -/
structure Candidate where
  country : String
  city : String
  doc : String
deriving DecidableEq, Repr

/-- The candidate-generation loop (src/app.py lines 269-272): planned
countries in their given order, catalog cities in catalog order. -/
def buildCandidates (planned : List String) (catalog : List (String × List String)) :
    List Candidate :=
  planned.flatMap fun country =>
    (catalogGet catalog country).map fun city =>
      { country := country, city := city, doc := country ++ " " ++ city }

/-- The helper `_uniq_sorted` (src/app.py lines 96-97),
`sorted({(v or "").strip() for v in values if (v or "").strip()})` —
trim every value, drop empties, deduplicate, sort ascending. -/
def uniqSorted (values : List String) : List String :=
  (((values.map strip).filter (fun v => v ≠ "")).dedup).mergeSort
    (fun a b => decide (a ≤ b))

/-- The mutable application-state row (src/app.py lines 35-52): the visited
and planned country lists.  (The row id and timestamps are not modelled.) -/
structure AppState where
  visited : List String
  planned : List String
deriving DecidableEq, Repr

/-- The state mutation performed by `api_add_trip` after inserting the trip
(src/app.py lines 212-218): when the trip's country is not yet visited, it
is merged into the visited list via `_uniq_sorted` and filtered out of the
planned list; otherwise the state row is left untouched. -/
def addTripState (st : AppState) (country : String) : AppState :=
  if country ∈ st.visited then st
  else
    { visited := uniqSorted (st.visited ++ [country]),
      planned := (st.planned).filter (fun c => c ≠ country) }

/-! ## Similarity scorer

The Python code delegates vectorization and scoring to scikit-learn
(`TfidfVectorizer(stop_words="english", ngram_range=(1, 2), max_features=6000)`
and `cosine_similarity`, src/app.py lines 303-310).  That library code is
modelled here from the spec (§4.3): a shared tf×idf term space over the
union of profile and candidate documents, stop words removed, unigrams and
adjacent bigrams as features, vocabulary capped at the 6000 most frequent
terms, rows l2-normalised, the profile collapsed to the element-wise mean,
and cosine similarity defined as 0 on zero-magnitude vectors. -/

/-- Modelled from the spec: the library's list of "common short stop-words"
(abridged to a representative list; the exact list does not matter to any
property proved below). -/
def stopWords : List String :=
  ["a", "an", "and", "are", "as", "at", "be", "by", "for", "from", "in",
   "is", "it", "of", "on", "or", "the", "to", "with"]

/-- Modelled from the spec: lower-case the document, split it on spaces and
drop empty pieces and stop words. -/
def tokenize (d : String) : List String :=
  ((d.toLower).splitOn (" ")).filter fun w => w ≠ "" ∧ w ∉ stopWords

/-- Adjacent two-term phrases of a token list. -/
def bigrams : List String → List String
  | a :: b :: t => (a ++ " " ++ b) :: bigrams (b :: t)
  | _ => []

/-- Modelled from the spec: the features of a document are its single terms
together with its adjacent two-term phrases. -/
def terms (d : String) : List String :=
  tokenize d ++ bigrams (tokenize d)

/-- Term frequency of `t` in document `d`. -/
def tf (d t : String) : ℕ :=
  (terms d).count t

/-- Document frequency: how many documents of the corpus contain `t`. -/
def dfCount (docs : List String) (t : String) : ℕ :=
  (docs.filter fun d => decide (t ∈ terms d)).length

/-- Modelled from the spec: smoothed inverse document frequency,
`ln((1 + n) / (1 + df)) + 1`. -/
noncomputable def idf (docs : List String) (t : String) : ℝ :=
  Real.log ((1 + docs.length) / (1 + dfCount docs t)) + 1

/-- Modelled from the spec: the vocabulary is capped to the 6000 most
frequent terms of the corpus (ties broken by any fixed order). -/
def vocab (docs : List String) : List String :=
  let allTerms := docs.flatMap terms
  (allTerms.dedup.mergeSort fun a b => decide (allTerms.count b ≤ allTerms.count a)).take 6000

/-- The raw tf×idf vector of a document over the shared term space, zero
outside the capped vocabulary. -/
noncomputable def rawVec (docs : List String) (d : String) : String → ℝ :=
  fun t => if t ∈ vocab docs then (tf d t : ℝ) * idf docs t else 0

/-- Euclidean magnitude of a vector over the feature set `V`. -/
noncomputable def l2norm (V : Finset String) (v : String → ℝ) : ℝ :=
  Real.sqrt (∑ t ∈ V, v t ^ 2)

/-- l2 row normalisation (a zero row stays zero: division by zero is zero). -/
noncomputable def normVec (V : Finset String) (v : String → ℝ) : String → ℝ :=
  fun t => v t / l2norm V v

/-- The element-wise mean of a list of vectors (src/app.py line 309). -/
noncomputable def meanVec (vs : List (String → ℝ)) : String → ℝ :=
  fun t => ((vs.map fun v => v t).sum) / vs.length

/-- Modelled from the spec: cosine similarity — dot product over the product
of magnitudes, defined as 0 when either magnitude is zero. -/
noncomputable def cosineSim (V : Finset String) (u v : String → ℝ) : ℝ :=
  if l2norm V u = 0 ∨ l2norm V v = 0 then 0
  else (∑ t ∈ V, u t * v t) / (l2norm V u * l2norm V v)

/-- The similarity scores of src/app.py lines 300-310: fit the shared term
space on profile documents followed by candidate documents, l2-normalise
every row, average the profile rows, and score each candidate row against
that mean by cosine similarity.  Returns one score per candidate document,
in candidate order. -/
noncomputable def simScores (vdocs cdocs : List String) : List ℝ :=
  let allDocs := vdocs ++ cdocs
  let V := (vocab allDocs).toFinset
  let row := fun d => normVec V (rawVec allDocs d)
  let pref := meanVec (vdocs.map row)
  cdocs.map fun d => cosineSim V (row d) pref

/-! ## Ranker / selector and the request handler -/

/-- One suggestion record: city, score and human-readable reason
(src/app.py lines 287-293 and 324-330). -/
structure Suggestion where
  city : String
  score : ℝ
  reason : String

/-- Modelled from the spec: the reason string embeds the score rendered to
two decimal places (Python's `f"{score:.2f}"`); rendering goes through the
integer nearest to `100 · score`. -/
noncomputable def fmt2 (x : ℝ) : String :=
  let c : ℤ := round (x * 100)
  toString (c / 100) ++ "." ++
    (if (c % 100).natAbs < 10 then ("0") else ("")) ++ toString (c % 100).natAbs

/-- The suggestion built for a scored candidate (src/app.py lines 324-330). -/
noncomputable def mkSuggestion (p : Candidate × ℝ) : Suggestion :=
  { city := p.1.city, score := p.2,
    reason := "Matches your travel profile (score " ++ fmt2 p.2 ++ ")." }

/-- The fixed cold-start suggestion for a candidate (src/app.py lines 286-293). -/
noncomputable def coldSuggestion (c : Candidate) : Suggestion :=
  { city := c.city, score := 0.10,
    reason := "No past trips yet — showing starter cities." }

/-- Python's `out.setdefault(country, []).append(v)` on an insertion-ordered
mapping: append to the country's bucket, creating it at the end when absent. -/
def insertAppend (out : List (String × List Suggestion)) (k : String) (v : Suggestion) :
    List (String × List Suggestion) :=
  match out with
  | [] => [(k, [v])]
  | (k', vs) :: rest =>
      if k' = k then (k', vs ++ [v]) :: rest else (k', vs) :: insertAppend rest k v

/-- The per-candidate step of the ranked output loop (src/app.py lines
317-330): create the country's bucket when absent, skip the candidate when
the bucket already holds 8 entries, otherwise append its suggestion. -/
def insertAppendCap (out : List (String × List Suggestion)) (k : String) (v : Suggestion) :
    List (String × List Suggestion) :=
  match out with
  | [] => [(k, [v])]
  | (k', vs) :: rest =>
      if k' = k then (k', if vs.length ≥ 8 then vs else vs ++ [v]) :: rest
      else (k', vs) :: insertAppendCap rest k v

/-- The cold-start output (src/app.py lines 284-297): group all candidates by
country in emission order with the fixed score and reason, then cap every
bucket to its first 8 entries. -/
noncomputable def coldStartOut (cands : List Candidate) : List (String × List Suggestion) :=
  (cands.foldl (fun out c => insertAppend out c.country (coldSuggestion c)) []).map
    fun kv => (kv.1, kv.2.take 8)

/-- The comparison used by `scored.sort(key=lambda x: x[1], reverse=True)`:
`p` may come before `q` iff `q`'s score is at most `p`'s. -/
noncomputable def descBy (p q : Candidate × ℝ) : Bool :=
  decide (q.2 ≤ p.2)

/-- The ranked output (src/app.py lines 313-330): stable-sort the scored
candidates by score descending, then run the capped grouping loop. -/
noncomputable def rankedOut (scored : List (Candidate × ℝ)) :
    List (String × List Suggestion) :=
  (scored.mergeSort descBy).foldl (fun out p => insertAppendCap out p.1.country (mkSuggestion p)) []

/-- The overall result of `/api/suggestions`: either a client error with an
HTTP status and message, or a success payload carrying the suggestion
mapping and an optional advisory note. -/
inductive ApiResult where
  | clientError (status : ℕ) (msg : String)
  | ok (suggestions : List (String × List Suggestion)) (note : Option String)

/-- The body of `api_suggestions` (src/app.py lines 237-332), as a function
of the trip history, the planned-country list and the normalised catalog
(an empty catalog stands for a missing or empty catalog file, as produced
by `_load_country_city_catalog`). -/
noncomputable def apiSuggestions (trips : List Trip) (planned : List String)
    (catalog : List (String × List String)) : ApiResult :=
  let vdocs := visitedDocs trips
  if catalog = [] then
    .clientError 400 "Missing or empty static/data/country_cities.json"
  else
    let cands := buildCandidates planned catalog
    if cands = [] then
      .ok [] (some ("No candidates found for your planned countries. " ++
        "Add cities in static/data/country_cities.json."))
    else if vdocs = [] then
      .ok (coldStartOut cands) none
    else
      .ok (rankedOut (cands.zip (simScores vdocs (cands.map Candidate.doc)))) none

/-- All suggestion records of a result, in output order. -/
def allSuggestions : ApiResult → List Suggestion
  | .clientError _ _ => []
  | .ok m _ => m.flatMap fun kv => kv.2

/-- All (country, city) pairs of a result's suggestions. -/
def suggPairs : ApiResult → List (String × String)
  | .clientError _ _ => []
  | .ok m _ => m.flatMap fun kv => kv.2.map fun s => (kv.1, s.city)

/-- The country keys of a result's suggestion mapping. -/
def suggKeys : ApiResult → List String
  | .clientError _ _ => []
  | .ok m _ => m.map fun kv => kv.1

/-- Whether the result is a success payload. -/
def ApiResult.isSuccess : ApiResult → Bool
  | .clientError _ _ => false
  | .ok _ _ => true

/-- The suggestion mapping of a result (empty for a client error). -/
def suggestionsOf : ApiResult → List (String × List Suggestion)
  | .clientError _ _ => []
  | .ok m _ => m

/-- A concrete trip used in counterexamples and witnesses below. -/
def cexTrip : Trip :=
  { country := "Spain", cities := ["Granada"], notes := "", companions := [] }

/-- A concrete one-country catalog used in counterexamples and witnesses. -/
def cexCatalog : List (String × List String) :=
  [("Spain", ["Granada"])]

/-- A trip whose preference document is empty after stripping (it would be
dropped by the profile builder). -/
def blankTrip : Trip :=
  { country := " ", cities := [], notes := "", companions := [] }

/-- The scored candidate list `list(zip(candidates, sims))` the handler
builds in the ranked branch (src/app.py lines 300-313), as a function of the
three request inputs. -/
noncomputable def scoredOf (trips : List Trip) (planned : List String)
    (catalog : List (String × List String)) : List (Candidate × ℝ) :=
  (buildCandidates planned catalog).zip
    (simScores (visitedDocs trips)
      ((buildCandidates planned catalog).map Candidate.doc))

/-- The Spain bucket the ranked path produces for the concrete request
`trips = [cexTrip]`, `planned = ["Spain"]`, `catalog = cexCatalog`. -/
noncomputable def w1Bucket : List Suggestion :=
  ((((scoredOf [cexTrip] ["Spain"] cexCatalog).mergeSort descBy).filter
    (fun p => decide (p.1.country = "Spain"))).take 8).map mkSuggestion

/-! ## Lemmas about the grouping loops -/

theorem lookup_insertAppendCap_self (out : List (String × List Suggestion)) (k : String)
    (v : Suggestion) :
    List.lookup k (insertAppendCap out k v) =
      some (match List.lookup k out with
            | some vs => if vs.length ≥ 8 then vs else vs ++ [v]
            | none => [v]) := by
  induction out with
  | nil => simp [insertAppendCap]
  | cons kv rest ih =>
      obtain ⟨k', vs⟩ := kv
      by_cases h : k' = k
      · subst h
        simp [insertAppendCap, List.lookup_cons]
      · have hb : (k == k') = false := beq_eq_false_iff_ne.mpr (Ne.symm h)
        simp [insertAppendCap, h, List.lookup_cons, hb, ih]

theorem lookup_insertAppendCap_ne (out : List (String × List Suggestion)) (k k' : String)
    (v : Suggestion) (h : k' ≠ k) :
    List.lookup k' (insertAppendCap out k v) = List.lookup k' out := by
  have hb : (k' == k) = false := beq_eq_false_iff_ne.mpr h
  induction out with
  | nil => simp [insertAppendCap, List.lookup_cons, hb]
  | cons kv rest ih =>
      obtain ⟨k₀, vs⟩ := kv
      by_cases h0 : k₀ = k
      · subst h0
        simp [insertAppendCap, List.lookup_cons, hb]
      · simp [insertAppendCap, h0, List.lookup_cons, ih]

theorem lookup_insertAppend_self (out : List (String × List Suggestion)) (k : String)
    (v : Suggestion) :
    List.lookup k (insertAppend out k v) =
      some ((List.lookup k out).getD [] ++ [v]) := by
  induction out with
  | nil => simp [insertAppend]
  | cons kv rest ih =>
      obtain ⟨k', vs⟩ := kv
      by_cases h : k' = k
      · subst h
        simp [insertAppend, List.lookup_cons]
      · have hb : (k == k') = false := beq_eq_false_iff_ne.mpr (Ne.symm h)
        simp [insertAppend, h, List.lookup_cons, hb, ih]

theorem lookup_insertAppend_ne (out : List (String × List Suggestion)) (k k' : String)
    (v : Suggestion) (h : k' ≠ k) :
    List.lookup k' (insertAppend out k v) = List.lookup k' out := by
  have hb : (k' == k) = false := beq_eq_false_iff_ne.mpr h
  induction out with
  | nil => simp [insertAppend, List.lookup_cons, hb]
  | cons kv rest ih =>
      obtain ⟨k₀, vs⟩ := kv
      by_cases h0 : k₀ = k
      · subst h0
        simp [insertAppend, List.lookup_cons, hb]
      · simp [insertAppend, h0, List.lookup_cons, ih]

theorem lookup_foldl_cap (l : List (Candidate × ℝ)) :
    ∀ (acc : List (String × List Suggestion)) (k : String),
      List.lookup k
          (l.foldl (fun out p => insertAppendCap out p.1.country (mkSuggestion p)) acc) =
        match List.lookup k acc with
        | some vs =>
            some (vs ++
              ((l.filter fun p => decide (p.1.country = k)).take (8 - vs.length)).map mkSuggestion)
        | none =>
            if k ∈ l.map (fun p => p.1.country) then
              some (((l.filter fun p => decide (p.1.country = k)).take 8).map mkSuggestion)
            else none := by
  induction l with
  | nil =>
      intro acc k
      cases h : List.lookup k acc <;> simp [h]
  | cons p t ih =>
      intro acc k
      by_cases hpk : p.1.country = k
      · -- the head candidate belongs to bucket k
        cases h : List.lookup k acc with
        | some vs =>
            by_cases hlen : vs.length ≥ 8
            · have hstep : List.lookup k (insertAppendCap acc p.1.country (mkSuggestion p)) =
                  some vs := by
                rw [hpk, lookup_insertAppendCap_self, h]
                simp [hlen]
              simp only [List.foldl_cons, ih, hstep, h]
              have h8 : 8 - vs.length = 0 := by omega
              simp [h8]
            · have hstep : List.lookup k (insertAppendCap acc p.1.country (mkSuggestion p)) =
                  some (vs ++ [mkSuggestion p]) := by
                rw [hpk, lookup_insertAppendCap_self, h]
                simp [hlen]
              simp only [List.foldl_cons, ih, hstep, h]
              have hfilter : (p :: t).filter (fun p => decide (p.1.country = k)) =
                  p :: t.filter (fun p => decide (p.1.country = k)) := by
                simp [List.filter_cons, hpk]
              rw [hfilter, List.take_cons (by omega : 0 < 8 - vs.length)]
              simp only [List.length_append, List.length_cons, List.length_nil, List.map_cons]
              have harith : 8 - (vs.length + 1) = 8 - vs.length - 1 := by omega
              simp [harith, List.append_assoc]
        | none =>
            have hstep : List.lookup k (insertAppendCap acc p.1.country (mkSuggestion p)) =
                some [mkSuggestion p] := by
              rw [hpk, lookup_insertAppendCap_self, h]
            simp only [List.foldl_cons, ih, hstep, h]
            have hfilter : (p :: t).filter (fun p => decide (p.1.country = k)) =
                p :: t.filter (fun p => decide (p.1.country = k)) := by
              simp [List.filter_cons, hpk]
            rw [hfilter, List.take_cons (by omega : (0:ℕ) < 8)]
            simp [hpk]
      · -- head belongs to a different bucket
        have hstep : List.lookup k (insertAppendCap acc p.1.country (mkSuggestion p)) =
            List.lookup k acc :=
          lookup_insertAppendCap_ne _ _ _ _ (fun hh => hpk hh.symm)
        have hfilter : (p :: t).filter (fun p => decide (p.1.country = k)) =
            t.filter (fun p => decide (p.1.country = k)) := by
          simp [List.filter_cons, hpk]
        have hmem : (k ∈ (p :: t).map fun p => p.1.country) ↔
            (k ∈ t.map fun p => p.1.country) := by
          simp only [List.map_cons, List.mem_cons]
          exact or_iff_right (fun hh => hpk hh.symm)
        cases h : List.lookup k acc with
        | some vs => simp only [List.foldl_cons, ih, hstep, h, hfilter]
        | none => simp only [List.foldl_cons, ih, hstep, h, hfilter, hmem]

theorem lookup_foldl_append (l : List Candidate) :
    ∀ (acc : List (String × List Suggestion)) (k : String),
      List.lookup k
          (l.foldl (fun out c => insertAppend out c.country (coldSuggestion c)) acc) =
        match List.lookup k acc with
        | some vs =>
            some (vs ++ (l.filter fun c => decide (c.country = k)).map coldSuggestion)
        | none =>
            if k ∈ l.map Candidate.country then
              some ((l.filter fun c => decide (c.country = k)).map coldSuggestion)
            else none := by
  induction l with
  | nil =>
      intro acc k
      cases h : List.lookup k acc <;> simp [h]
  | cons c t ih =>
      intro acc k
      by_cases hck : c.country = k
      · cases h : List.lookup k acc with
        | some vs =>
            have hstep : List.lookup k (insertAppend acc c.country (coldSuggestion c)) =
                some (vs ++ [coldSuggestion c]) := by
              rw [hck, lookup_insertAppend_self, h]
              simp
            simp only [List.foldl_cons, ih, hstep, h]
            have hfilter : (c :: t).filter (fun c => decide (c.country = k)) =
                c :: t.filter (fun c => decide (c.country = k)) := by
              simp [List.filter_cons, hck]
            rw [hfilter]
            simp [List.append_assoc]
        | none =>
            have hstep : List.lookup k (insertAppend acc c.country (coldSuggestion c)) =
                some [coldSuggestion c] := by
              rw [hck, lookup_insertAppend_self, h]
              simp
            simp only [List.foldl_cons, ih, hstep, h]
            have hfilter : (c :: t).filter (fun c => decide (c.country = k)) =
                c :: t.filter (fun c => decide (c.country = k)) := by
              simp [List.filter_cons, hck]
            rw [hfilter]
            simp [hck]
      · have hstep : List.lookup k (insertAppend acc c.country (coldSuggestion c)) =
            List.lookup k acc :=
          lookup_insertAppend_ne _ _ _ _ (fun hh => hck hh.symm)
        have hfilter : (c :: t).filter (fun c => decide (c.country = k)) =
            t.filter (fun c => decide (c.country = k)) := by
          simp [List.filter_cons, hck]
        have hmem : (k ∈ (c :: t).map Candidate.country) ↔ (k ∈ t.map Candidate.country) := by
          simp only [List.map_cons, List.mem_cons]
          exact or_iff_right (fun hh => hck hh.symm)
        cases h : List.lookup k acc with
        | some vs => simp only [List.foldl_cons, ih, hstep, h, hfilter]
        | none => simp only [List.foldl_cons, ih, hstep, h, hfilter, hmem]

theorem lookup_map_take (out : List (String × List Suggestion)) (k : String) :
    List.lookup k (out.map fun kv => (kv.1, kv.2.take 8)) =
      (List.lookup k out).map (List.take 8) := by
  induction out with
  | nil => simp
  | cons kv rest ih =>
      obtain ⟨k', vs⟩ := kv
      by_cases h : k = k'
      · subst h
        simp [List.lookup_cons]
      · have hb : (k == k') = false := beq_eq_false_iff_ne.mpr h
        simp [List.lookup_cons, hb, ih]

/-- The cold-start bucket of a country is exactly the first 8 of its
candidates, in emission order, with the fixed cold-start record. -/
theorem lookup_coldStartOut (cands : List Candidate) (k : String) :
    List.lookup k (coldStartOut cands) =
      if k ∈ cands.map Candidate.country then
        some (((cands.filter fun c => decide (c.country = k)).take 8).map coldSuggestion)
      else none := by
  unfold coldStartOut
  rw [lookup_map_take, lookup_foldl_append]
  simp only [List.lookup_nil]
  by_cases hm : k ∈ cands.map Candidate.country
  · simp [hm, List.map_take]
  · simp [hm]

/-- The ranked bucket of a country is exactly the first 8 of its candidates
in the stable score-descending order. -/
theorem lookup_rankedOut (scored : List (Candidate × ℝ)) (k : String) :
    List.lookup k (rankedOut scored) =
      if k ∈ (scored.mergeSort descBy).map (fun p => p.1.country) then
        some ((((scored.mergeSort descBy).filter
          fun p => decide (p.1.country = k)).take 8).map mkSuggestion)
      else none := by
  unfold rankedOut
  rw [lookup_foldl_cap]
  simp

theorem mem_map_fst_insertAppendCap (out : List (String × List Suggestion)) (k k' : String)
    (v : Suggestion) (h : k' ∈ (insertAppendCap out k v).map Prod.fst) :
    k' ∈ out.map Prod.fst ∨ k' = k := by
  induction out with
  | nil => simp [insertAppendCap] at h; simp [h]
  | cons kv rest ih =>
      obtain ⟨k₀, vs⟩ := kv
      by_cases h0 : k₀ = k
      · subst h0
        simp [insertAppendCap] at h
        simp [h]
      · simp [insertAppendCap, h0] at h
        rcases h with h | h
        · simp [h]
        · obtain ⟨x, hx⟩ := h
          rcases ih (List.mem_map.mpr ⟨(k', x), hx, rfl⟩) with h' | h'
          · exact Or.inl (by simp [List.mem_cons]; right; simpa using h')
          · exact Or.inr h'

theorem mem_map_fst_insertAppend (out : List (String × List Suggestion)) (k k' : String)
    (v : Suggestion) (h : k' ∈ (insertAppend out k v).map Prod.fst) :
    k' ∈ out.map Prod.fst ∨ k' = k := by
  induction out with
  | nil => simp [insertAppend] at h; simp [h]
  | cons kv rest ih =>
      obtain ⟨k₀, vs⟩ := kv
      by_cases h0 : k₀ = k
      · subst h0
        simp [insertAppend] at h
        simp [h]
      · simp [insertAppend, h0] at h
        rcases h with h | h
        · simp [h]
        · obtain ⟨x, hx⟩ := h
          rcases ih (List.mem_map.mpr ⟨(k', x), hx, rfl⟩) with h' | h'
          · exact Or.inl (by simp [List.mem_cons]; right; simpa using h')
          · exact Or.inr h'

theorem mem_map_fst_foldl_cap (l : List (Candidate × ℝ)) :
    ∀ (acc : List (String × List Suggestion)) (k' : String),
      k' ∈ ((l.foldl (fun out p => insertAppendCap out p.1.country (mkSuggestion p)) acc).map
          Prod.fst) →
        k' ∈ acc.map Prod.fst ∨ k' ∈ l.map fun p => p.1.country := by
  induction l with
  | nil => intro acc k' h; exact Or.inl h
  | cons p t ih =>
      intro acc k' h
      rcases ih _ _ h with h' | h'
      · rcases mem_map_fst_insertAppendCap _ _ _ _ h' with h'' | h''
        · exact Or.inl h''
        · exact Or.inr (by simp [h''])
      · exact Or.inr (by simp [h'])

theorem mem_map_fst_foldl_append (l : List Candidate) :
    ∀ (acc : List (String × List Suggestion)) (k' : String),
      k' ∈ ((l.foldl (fun out c => insertAppend out c.country (coldSuggestion c)) acc).map
          Prod.fst) →
        k' ∈ acc.map Prod.fst ∨ k' ∈ l.map Candidate.country := by
  induction l with
  | nil => intro acc k' h; exact Or.inl h
  | cons c t ih =>
      intro acc k' h
      rcases ih _ _ h with h' | h'
      · rcases mem_map_fst_insertAppend _ _ _ _ h' with h'' | h''
        · exact Or.inl h''
        · exact Or.inr (by simp [h''])
      · exact Or.inr (by simp [h'])

theorem mem_snd_insertAppendCap (out : List (String × List Suggestion)) (k : String)
    (v s : Suggestion) (h : s ∈ (insertAppendCap out k v).flatMap fun kv => kv.2) :
    (s ∈ out.flatMap fun kv => kv.2) ∨ s = v := by
  induction out with
  | nil => simp [insertAppendCap] at h; simp [h]
  | cons kv rest ih =>
      obtain ⟨k₀, vs⟩ := kv
      by_cases h0 : k₀ = k
      · subst h0
        rw [show insertAppendCap ((k₀, vs) :: rest) k₀ v =
            (k₀, if vs.length ≥ 8 then vs else vs ++ [v]) :: rest from by
          simp [insertAppendCap]] at h
        rw [List.flatMap_cons] at h
        rcases List.mem_append.mp h with h | h
        · have h' : s ∈ if vs.length ≥ 8 then vs else vs ++ [v] := h
          by_cases hlen : vs.length ≥ 8
          · rw [if_pos hlen] at h'
            exact Or.inl (by rw [List.flatMap_cons]; exact List.mem_append.mpr (Or.inl h'))
          · rw [if_neg hlen] at h'
            rcases List.mem_append.mp h' with h'' | h''
            · exact Or.inl (by rw [List.flatMap_cons]; exact List.mem_append.mpr (Or.inl h''))
            · exact Or.inr (by simpa using h'')
        · exact Or.inl (by rw [List.flatMap_cons]; exact List.mem_append.mpr (Or.inr h))
      · rw [show insertAppendCap ((k₀, vs) :: rest) k v =
            (k₀, vs) :: insertAppendCap rest k v from by simp [insertAppendCap, h0]] at h
        rw [List.flatMap_cons] at h
        rcases List.mem_append.mp h with h | h
        · exact Or.inl (by rw [List.flatMap_cons]; exact List.mem_append.mpr (Or.inl h))
        · rcases ih h with h' | h'
          · exact Or.inl (by rw [List.flatMap_cons]; exact List.mem_append.mpr (Or.inr h'))
          · exact Or.inr h'

theorem mem_snd_insertAppend (out : List (String × List Suggestion)) (k : String)
    (v s : Suggestion) (h : s ∈ (insertAppend out k v).flatMap fun kv => kv.2) :
    (s ∈ out.flatMap fun kv => kv.2) ∨ s = v := by
  induction out with
  | nil => simp [insertAppend] at h; simp [h]
  | cons kv rest ih =>
      obtain ⟨k₀, vs⟩ := kv
      by_cases h0 : k₀ = k
      · subst h0
        rw [show insertAppend ((k₀, vs) :: rest) k₀ v = (k₀, vs ++ [v]) :: rest from by
          simp [insertAppend]] at h
        rw [List.flatMap_cons] at h
        rcases List.mem_append.mp h with h | h
        · have h' : s ∈ vs ++ [v] := h
          rcases List.mem_append.mp h' with h'' | h''
          · exact Or.inl (by rw [List.flatMap_cons]; exact List.mem_append.mpr (Or.inl h''))
          · exact Or.inr (by simpa using h'')
        · exact Or.inl (by rw [List.flatMap_cons]; exact List.mem_append.mpr (Or.inr h))
      · rw [show insertAppend ((k₀, vs) :: rest) k v =
            (k₀, vs) :: insertAppend rest k v from by simp [insertAppend, h0]] at h
        rw [List.flatMap_cons] at h
        rcases List.mem_append.mp h with h | h
        · exact Or.inl (by rw [List.flatMap_cons]; exact List.mem_append.mpr (Or.inl h))
        · rcases ih h with h' | h'
          · exact Or.inl (by rw [List.flatMap_cons]; exact List.mem_append.mpr (Or.inr h'))
          · exact Or.inr h'

theorem mem_snd_foldl_cap (l : List (Candidate × ℝ)) :
    ∀ (acc : List (String × List Suggestion)) (s : Suggestion),
      s ∈ ((l.foldl (fun out p => insertAppendCap out p.1.country (mkSuggestion p)) acc).flatMap
          fun kv => kv.2) →
        (s ∈ acc.flatMap fun kv => kv.2) ∨ ∃ p ∈ l, s = mkSuggestion p := by
  induction l with
  | nil => intro acc s h; exact Or.inl h
  | cons p t ih =>
      intro acc s h
      rcases ih _ _ h with h' | h'
      · rcases mem_snd_insertAppendCap _ _ _ _ h' with h'' | h''
        · exact Or.inl h''
        · exact Or.inr ⟨p, by simp, h''⟩
      · obtain ⟨q, hq, hs⟩ := h'
        exact Or.inr ⟨q, by simp [hq], hs⟩

theorem mem_snd_foldl_append (l : List Candidate) :
    ∀ (acc : List (String × List Suggestion)) (s : Suggestion),
      s ∈ ((l.foldl (fun out c => insertAppend out c.country (coldSuggestion c)) acc).flatMap
          fun kv => kv.2) →
        (s ∈ acc.flatMap fun kv => kv.2) ∨ ∃ c ∈ l, s = coldSuggestion c := by
  induction l with
  | nil => intro acc s h; exact Or.inl h
  | cons c t ih =>
      intro acc s h
      rcases ih _ _ h with h' | h'
      · rcases mem_snd_insertAppend _ _ _ _ h' with h'' | h''
        · exact Or.inl h''
        · exact Or.inr ⟨c, by simp, h''⟩
      · obtain ⟨q, hq, hs⟩ := h'
        exact Or.inr ⟨q, by simp [hq], hs⟩

theorem map_fst_insertAppendCap (out : List (String × List Suggestion)) (k : String)
    (v : Suggestion) :
    (insertAppendCap out k v).map Prod.fst =
      if k ∈ out.map Prod.fst then out.map Prod.fst else out.map Prod.fst ++ [k] := by
  induction out with
  | nil => simp [insertAppendCap]
  | cons kv rest ih =>
      obtain ⟨k₀, vs⟩ := kv
      by_cases h0 : k₀ = k
      · subst h0
        simp [insertAppendCap]
      · have hk : (k ∈ (k₀, vs).fst :: rest.map Prod.fst) ↔ (k ∈ rest.map Prod.fst) := by
          simp only [List.mem_cons]
          exact or_iff_right (fun hh => h0 hh.symm)
        by_cases hm : k ∈ rest.map Prod.fst
        · simp [insertAppendCap, h0, ih, hm, hk]
        · simp [insertAppendCap, h0, ih, hm, hk]

theorem map_fst_insertAppend (out : List (String × List Suggestion)) (k : String)
    (v : Suggestion) :
    (insertAppend out k v).map Prod.fst =
      if k ∈ out.map Prod.fst then out.map Prod.fst else out.map Prod.fst ++ [k] := by
  induction out with
  | nil => simp [insertAppend]
  | cons kv rest ih =>
      obtain ⟨k₀, vs⟩ := kv
      by_cases h0 : k₀ = k
      · subst h0
        simp [insertAppend]
      · have hk : (k ∈ (k₀, vs).fst :: rest.map Prod.fst) ↔ (k ∈ rest.map Prod.fst) := by
          simp only [List.mem_cons]
          exact or_iff_right (fun hh => h0 hh.symm)
        by_cases hm : k ∈ rest.map Prod.fst
        · simp [insertAppend, h0, ih, hm, hk]
        · simp [insertAppend, h0, ih, hm, hk]

theorem nodup_map_fst_foldl_cap (l : List (Candidate × ℝ)) :
    ∀ (acc : List (String × List Suggestion)), (acc.map Prod.fst).Nodup →
      (((l.foldl (fun out p => insertAppendCap out p.1.country (mkSuggestion p)) acc).map
        Prod.fst)).Nodup := by
  induction l with
  | nil => intro acc h; exact h
  | cons p t ih =>
      intro acc h
      refine ih _ ?_
      rw [map_fst_insertAppendCap]
      by_cases hm : p.1.country ∈ acc.map Prod.fst
      · simpa [hm] using h
      · rw [if_neg hm]
        exact List.Nodup.append h (List.nodup_singleton _) (by simpa using hm)

theorem nodup_map_fst_foldl_append (l : List Candidate) :
    ∀ (acc : List (String × List Suggestion)), (acc.map Prod.fst).Nodup →
      (((l.foldl (fun out c => insertAppend out c.country (coldSuggestion c)) acc).map
        Prod.fst)).Nodup := by
  induction l with
  | nil => intro acc h; exact h
  | cons c t ih =>
      intro acc h
      refine ih _ ?_
      rw [map_fst_insertAppend]
      by_cases hm : c.country ∈ acc.map Prod.fst
      · simpa [hm] using h
      · rw [if_neg hm]
        exact List.Nodup.append h (List.nodup_singleton _) (by simpa using hm)

theorem lookup_of_mem_of_nodup_keys (m : List (String × List Suggestion))
    (k : String) (vs : List Suggestion) (hnd : (m.map Prod.fst).Nodup) (hkv : (k, vs) ∈ m) :
    List.lookup k m = some vs := by
  induction m with
  | nil => simp at hkv
  | cons kv₀ rest ih =>
      obtain ⟨k₀, vs₀⟩ := kv₀
      rcases List.mem_cons.mp hkv with h | h
      · obtain ⟨hk, hv⟩ := Prod.mk.injEq .. ▸ h
        subst hk
        subst hv
        simp [List.lookup_cons]
      · have h1 : k ≠ k₀ := by
          intro he
          have : k₀ ∈ rest.map Prod.fst := by
            exact he ▸ List.mem_map.mpr ⟨(k, vs), h, rfl⟩
          exact (List.nodup_cons.mp (by simpa using hnd)).1 this
        have hb : (k == k₀) = false := beq_eq_false_iff_ne.mpr h1
        rw [List.lookup_cons]
        simp only [hb]
        exact ih (List.nodup_cons.mp (by simpa using hnd)).2 h

/-! ## Scorer bounds -/

theorem idf_nonneg (docs : List String) (t : String) : 0 ≤ idf docs t := by
  unfold idf
  have h1 : (1 : ℝ) ≤ (1 + docs.length) / (1 + dfCount docs t) := by
    rw [le_div_iff₀ (by positivity)]
    have : (dfCount docs t : ℝ) ≤ docs.length := by
      exact_mod_cast List.length_filter_le _ _
    linarith
  have := Real.log_nonneg h1
  linarith

theorem rawVec_nonneg (docs : List String) (d t : String) : 0 ≤ rawVec docs d t := by
  unfold rawVec
  by_cases h : t ∈ vocab docs
  · rw [if_pos h]
    exact mul_nonneg (by positivity) (idf_nonneg docs t)
  · rw [if_neg h]

theorem l2norm_nonneg (V : Finset String) (v : String → ℝ) : 0 ≤ l2norm V v :=
  Real.sqrt_nonneg _

theorem normVec_nonneg (V : Finset String) (v : String → ℝ) (hv : ∀ t, 0 ≤ v t) (t : String) :
    0 ≤ normVec V v t :=
  div_nonneg (hv t) (l2norm_nonneg V v)

theorem meanVec_nonneg (vs : List (String → ℝ)) (hv : ∀ v ∈ vs, ∀ t, 0 ≤ v t) (t : String) :
    0 ≤ meanVec vs t := by
  unfold meanVec
  refine div_nonneg ?_ (by positivity)
  refine List.sum_nonneg ?_
  intro x hx
  obtain ⟨v, hvmem, rfl⟩ := List.mem_map.mp hx
  exact hv v hvmem t

/-- Cosine similarity of entrywise non-negative vectors lies in [0, 1]. -/
theorem cosineSim_mem_unit (V : Finset String) (u v : String → ℝ)
    (hu : ∀ t, 0 ≤ u t) (hv : ∀ t, 0 ≤ v t) :
    0 ≤ cosineSim V u v ∧ cosineSim V u v ≤ 1 := by
  unfold cosineSim
  by_cases h0 : l2norm V u = 0 ∨ l2norm V v = 0
  · rw [if_pos h0]
    exact ⟨le_refl 0, by norm_num⟩
  · rw [if_neg h0]
    push_neg at h0
    have hupos : 0 < l2norm V u := lt_of_le_of_ne (l2norm_nonneg V u) (Ne.symm h0.1)
    have hvpos : 0 < l2norm V v := lt_of_le_of_ne (l2norm_nonneg V v) (Ne.symm h0.2)
    have hdenom : 0 < l2norm V u * l2norm V v := mul_pos hupos hvpos
    constructor
    · refine div_nonneg ?_ hdenom.le
      exact Finset.sum_nonneg fun t _ => mul_nonneg (hu t) (hv t)
    · rw [div_le_one hdenom]
      calc ∑ t ∈ V, u t * v t
          ≤ Real.sqrt (∑ t ∈ V, u t ^ 2) * Real.sqrt (∑ t ∈ V, v t ^ 2) :=
            Real.sum_mul_le_sqrt_mul_sqrt V u v
        _ = l2norm V u * l2norm V v := rfl

/-- Every score the similarity scorer emits lies in [0, 1]. -/
theorem simScores_mem_unit (vdocs cdocs : List String) (s : ℝ)
    (hs : s ∈ simScores vdocs cdocs) : 0 ≤ s ∧ s ≤ 1 := by
  unfold simScores at hs
  obtain ⟨d, hd, rfl⟩ := List.mem_map.mp hs
  refine cosineSim_mem_unit _ _ _ ?_ ?_
  · exact normVec_nonneg _ _ (rawVec_nonneg _ _) 
  · refine meanVec_nonneg _ ?_
    intro v hv t
    obtain ⟨d', hd', rfl⟩ := List.mem_map.mp hv
    exact normVec_nonneg _ _ (rawVec_nonneg _ _) t

/-! ## Candidate and output membership -/

theorem mem_buildCandidates (planned : List String) (catalog : List (String × List String))
    (c : Candidate) (h : c ∈ buildCandidates planned catalog) :
    c.country ∈ planned ∧ c.city ∈ catalogGet catalog c.country ∧
      c.doc = c.country ++ " " ++ c.city := by
  unfold buildCandidates at h
  obtain ⟨co, hco, hc⟩ := List.mem_flatMap.mp h
  obtain ⟨ci, hci, rfl⟩ := List.mem_map.mp hc
  exact ⟨hco, hci, rfl⟩

/-- Every country key of a suggestions result is a planned country. -/
theorem mem_suggKeys_imp_planned (trips : List Trip) (planned : List String)
    (catalog : List (String × List String)) (k : String)
    (h : k ∈ suggKeys (apiSuggestions trips planned catalog)) : k ∈ planned := by
  unfold apiSuggestions at h
  by_cases hcat : catalog = []
  · simp [hcat, suggKeys] at h
  · rw [if_neg hcat] at h
    by_cases hcands : buildCandidates planned catalog = []
    · simp [hcands, suggKeys] at h
    · rw [if_neg hcands] at h
      by_cases hv : visitedDocs trips = []
      · rw [if_pos hv] at h
        have h' : k ∈ (coldStartOut (buildCandidates planned catalog)).map Prod.fst := h
        unfold coldStartOut at h'
        rw [List.map_map] at h'
        have h'' : k ∈ ((buildCandidates planned catalog).foldl
            (fun out c => insertAppend out c.country (coldSuggestion c)) []).map Prod.fst := by
          simpa [Function.comp] using h'
        rcases mem_map_fst_foldl_append _ _ _ h'' with h3 | h3
        · simp at h3
        · obtain ⟨c, hc, rfl⟩ := List.mem_map.mp h3
          exact (mem_buildCandidates _ _ _ hc).1
      · rw [if_neg hv] at h
        have h' : k ∈ (rankedOut ((buildCandidates planned catalog).zip
            (simScores (visitedDocs trips)
              ((buildCandidates planned catalog).map Candidate.doc)))).map Prod.fst := h
        unfold rankedOut at h'
        rcases mem_map_fst_foldl_cap _ _ _ h' with h3 | h3
        · simp at h3
        · obtain ⟨p, hp, rfl⟩ := List.mem_map.mp h3
          have hpz := List.mem_mergeSort.mp hp
          have := (List.of_mem_zip hpz).1
          exact (mem_buildCandidates _ _ _ this).1

/-! ## Claim C3 -/

/-- C3: whenever the normalised catalog is empty or missing, `/api/suggestions`
fails with the 400 client error naming the missing catalog file and returns
no suggestions at all, even when the planned-country list is non-empty. -/
theorem C3_catalog_unavailable (trips : List Trip) (planned : List String) :
    apiSuggestions trips planned [] =
      .clientError 400 "Missing or empty static/data/country_cities.json" ∧
    allSuggestions (apiSuggestions trips planned []) = [] ∧
    (apiSuggestions trips planned []).isSuccess = false :=
  ⟨rfl, rfl, rfl⟩

/-! ## Claim C5 -/

/-- C5 counterexample: a request with an empty planned-country list does NOT
always succeed — when the catalog is also empty the request fails with the
400 catalog error, contradicting the claim as stated. -/
theorem C5_empty_planned_cex :
    apiSuggestions [] [] [] =
      .clientError 400 "Missing or empty static/data/country_cities.json" ∧
    (apiSuggestions [] [] []).isSuccess = false :=
  ⟨rfl, rfl⟩

/-- C5 (amended): provided the catalog is non-empty, a request with an empty
planned-country list returns a success result with an empty suggestion
mapping and the advisory note, and no failure is raised. -/
theorem C5_empty_planned_ok (trips : List Trip) (catalog : List (String × List String))
    (hcat : catalog ≠ []) :
    apiSuggestions trips [] catalog =
      .ok [] (some ("No candidates found for your planned countries. " ++
        "Add cities in static/data/country_cities.json.")) ∧
    (apiSuggestions trips [] catalog).isSuccess = true := by
  constructor
  · unfold apiSuggestions
    rw [if_neg hcat]
    rfl
  · unfold apiSuggestions
    rw [if_neg hcat]
    rfl

/-- C5 witness at a concrete non-empty catalog. -/
theorem C5_empty_planned_ok_witness :
    apiSuggestions [] [] cexCatalog =
      .ok [] (some ("No candidates found for your planned countries. " ++
        "Add cities in static/data/country_cities.json.")) ∧
    (apiSuggestions [] [] cexCatalog).isSuccess = true :=
  C5_empty_planned_ok [] cexCatalog (by decide)

/-! ## Claim C8 -/

/-- C8: the engine is deterministic — two invocations on identical inputs
(same trip history, same planned list, same catalog) produce identical
results, including identical suggestion mappings, scores and reasons.  In
this embedding the handler is a pure function of its three inputs, so the
property is congruence. -/
theorem C8_deterministic (t₁ t₂ : List Trip) (p₁ p₂ : List String)
    (c₁ c₂ : List (String × List String)) (ht : t₁ = t₂) (hp : p₁ = p₂) (hc : c₁ = c₂) :
    apiSuggestions t₁ p₁ c₁ = apiSuggestions t₂ p₂ c₂ := by
  rw [ht, hp, hc]

/-- C8 witness at concrete inputs. -/
theorem C8_deterministic_witness :
    apiSuggestions [cexTrip] ["Spain"] cexCatalog = apiSuggestions [cexTrip] ["Spain"] cexCatalog :=
  C8_deterministic [cexTrip] [cexTrip] ["Spain"] ["Spain"] cexCatalog cexCatalog rfl rfl rfl

/-! ## Claim C9 -/

/-- C9: the profile builder emits one document per trip — the
whitespace-joined concatenation of country, cities, notes and companions —
drops every document that is empty after stripping, and maps the empty trip
list to the empty document list (the downstream cold-start trigger); it is a
pure function of the trip list. -/
theorem C9_profile_builder (trips : List Trip) :
    visitedDocs trips = (trips.map tripDoc).filter (fun d => decide (d ≠ "")) ∧
    (∀ d ∈ visitedDocs trips, d ≠ "" ∧ ∃ t ∈ trips, d = tripDoc t) ∧
    visitedDocs [] = ([] : List String) := by
  have hmain : ∀ ts : List Trip,
      visitedDocs ts = (ts.map tripDoc).filter (fun d => decide (d ≠ "")) := by
    intro ts
    induction ts with
    | nil => rfl
    | cons t ts ih =>
        by_cases h : tripDoc t = ""
        · simp [visitedDocs, h, List.filter_cons, ih]
        · simp [visitedDocs, h, List.filter_cons, ih]
  refine ⟨hmain trips, ?_, rfl⟩
  intro d hd
  rw [hmain trips] at hd
  have hmem := List.mem_filter.mp hd
  obtain ⟨t, ht, rfl⟩ := List.mem_map.mp hmem.1
  exact ⟨of_decide_eq_true hmem.2, t, ht, rfl⟩

/-- C9 witness: a concrete trip list with one blank trip. -/
theorem C9_profile_builder_witness :
    visitedDocs [cexTrip, blankTrip] =
      ([cexTrip, blankTrip].map tripDoc).filter (fun d => decide (d ≠ "")) :=
  (C9_profile_builder [cexTrip, blankTrip]).1

/-! ## Claim C10 -/

/-- C10 counterexample: when the trip's country is already in the visited
list, `api_add_trip` leaves the state row unchanged — in particular the
country is NOT removed from the planned list, contradicting the claim. -/
theorem C10_add_trip_cex :
    addTripState ⟨["Spain"], ["Spain"]⟩ "Spain" = ⟨["Spain"], ["Spain"]⟩ ∧
    "Spain" ∈ (addTripState ⟨["Spain"], ["Spain"]⟩ "Spain").planned := by
  constructor
  · rfl
  · decide

/-- C10 (amended): adding a trip for a country `c` that is not yet visited
merges `c` into the visited list (kept stripped, deduplicated and sorted via
`_uniq_sorted`) and removes `c` from the planned list; consequently `c` never
appears as a key of a subsequent suggestions result computed from the updated
planned list.  (When `c` is already visited the state row is left unchanged —
see the counterexample.) -/
theorem C10_add_trip_state (st : AppState) (c : String) (trips : List Trip)
    (catalog : List (String × List String))
    (hne : c ∉ st.visited) (hstrip : strip c = c) (hc0 : c ≠ "") :
    (addTripState st c).visited = uniqSorted (st.visited ++ [c]) ∧
    c ∈ (addTripState st c).visited ∧
    (addTripState st c).planned = st.planned.filter (fun x => x ≠ c) ∧
    c ∉ (addTripState st c).planned ∧
    (addTripState st c).visited.Nodup ∧
    (addTripState st c).visited.Pairwise (· ≤ ·) ∧
    c ∉ suggKeys (apiSuggestions trips (addTripState st c).planned catalog) := by
  have hv : (addTripState st c).visited = uniqSorted (st.visited ++ [c]) := by
    unfold addTripState
    rw [if_neg hne]
  have hp : (addTripState st c).planned = st.planned.filter (fun x => x ≠ c) := by
    unfold addTripState
    rw [if_neg hne]
  have hnotp : c ∉ (addTripState st c).planned := by
    rw [hp]
    intro hmem
    have := List.mem_filter.mp hmem
    simp at this
  refine ⟨hv, ?_, hp, hnotp, ?_, ?_, ?_⟩
  · -- membership of c in the re-normalised visited list
    rw [hv]
    unfold uniqSorted
    rw [List.mem_mergeSort, List.mem_dedup]
    refine List.mem_filter.mpr ⟨?_, by simpa using hc0⟩
    refine List.mem_map.mpr ⟨c, ?_, hstrip⟩
    simp
  · -- no duplicates
    rw [hv]
    unfold uniqSorted
    exact (List.mergeSort_perm _ _).symm.nodup (List.nodup_dedup _)
  · -- sorted ascending
    rw [hv]
    unfold uniqSorted
    have hs := @List.sorted_mergeSort String (fun a b : String => decide (a ≤ b))
      (fun a b c ha hb => by
        simp only [decide_eq_true_eq] at *
        exact le_trans ha hb)
      (fun a b => by
        rcases le_total a b with h | h <;> simp [h])
      ((((st.visited ++ [c]).map strip).filter (fun v => v ≠ "")).dedup)
    exact hs.imp (fun h => of_decide_eq_true h)
  · -- the country never reappears as a suggestions key
    intro hmem
    have := mem_suggKeys_imp_planned trips _ catalog c hmem
    exact hnotp this

/-- C10 witness: a concrete fresh country. -/
theorem C10_add_trip_state_witness :
    (addTripState ⟨[], ["France", "Spain"]⟩ "Spain").visited =
      uniqSorted ([] ++ ["Spain"]) ∧
    "Spain" ∈ (addTripState ⟨[], ["France", "Spain"]⟩ "Spain").visited ∧
    (addTripState ⟨[], ["France", "Spain"]⟩ "Spain").planned =
      ["France", "Spain"].filter (fun x => x ≠ "Spain") ∧
    "Spain" ∉ (addTripState ⟨[], ["France", "Spain"]⟩ "Spain").planned ∧
    (addTripState ⟨[], ["France", "Spain"]⟩ "Spain").visited.Nodup ∧
    (addTripState ⟨[], ["France", "Spain"]⟩ "Spain").visited.Pairwise (· ≤ ·) ∧
    "Spain" ∉ suggKeys (apiSuggestions []
      (addTripState ⟨[], ["France", "Spain"]⟩ "Spain").planned [("France", ["Paris"])]) :=
  C10_add_trip_state ⟨[], ["France", "Spain"]⟩ "Spain" [] [("France", ["Paris"])]
    (by decide) (by decide) (by decide)

/-! ## Claim C2 -/

/-- C2: when the traveler profile is empty (no non-empty trip documents),
every suggestion the request produces carries score exactly 0.10 and the
fixed starter-cities reason, regardless of candidate content; each country's
bucket is capped at 8 and lists its candidates in the generator's emission
order. -/
theorem C2_cold_start (trips : List Trip) (planned : List String)
    (catalog : List (String × List String)) (k : String) (vs : List Suggestion)
    (hprof : visitedDocs trips = [])
    (hlook : List.lookup k (suggestionsOf (apiSuggestions trips planned catalog)) = some vs) :
    vs = (((buildCandidates planned catalog).filter
        (fun c => decide (c.country = k))).take 8).map coldSuggestion ∧
    vs.length ≤ 8 ∧
    ∀ s ∈ vs, s.score = 0.10 ∧ s.reason = "No past trips yet — showing starter cities." := by
  by_cases hcat : catalog = []
  · rw [show apiSuggestions trips planned catalog =
        .clientError 400 "Missing or empty static/data/country_cities.json" from by
      unfold apiSuggestions
      rw [if_pos hcat]] at hlook
    simp [suggestionsOf] at hlook
  · by_cases hcands : buildCandidates planned catalog = []
    · rw [show apiSuggestions trips planned catalog =
          .ok [] (some ("No candidates found for your planned countries. " ++
            "Add cities in static/data/country_cities.json.")) from by
        unfold apiSuggestions
        rw [if_neg hcat, if_pos hcands]] at hlook
      simp [suggestionsOf] at hlook
    · have hbranch : suggestionsOf (apiSuggestions trips planned catalog) =
          coldStartOut (buildCandidates planned catalog) := by
        unfold apiSuggestions
        rw [if_neg hcat, if_neg hcands, if_pos hprof]
        rfl
      rw [hbranch, lookup_coldStartOut] at hlook
      by_cases hm : k ∈ (buildCandidates planned catalog).map Candidate.country
      · rw [if_pos hm] at hlook
        have hvs' : vs = (((buildCandidates planned catalog).filter
            (fun c => decide (c.country = k))).take 8).map coldSuggestion :=
          (Option.some.inj hlook).symm
        refine ⟨hvs', ?_, ?_⟩
        · rw [hvs']
          simp only [List.length_map]
          exact List.length_take_le _ _
        · intro s hs
          rw [hvs'] at hs
          obtain ⟨c, hc, rfl⟩ := List.mem_map.mp hs
          exact ⟨rfl, rfl⟩
      · rw [if_neg hm] at hlook
        simp at hlook

/-- C2 witness: an empty trip history with one planned country. -/
theorem C2_cold_start_witness :
    (((buildCandidates ["Spain"] cexCatalog).filter
        (fun c => decide (c.country = "Spain"))).take 8).map coldSuggestion =
      (((buildCandidates ["Spain"] cexCatalog).filter
        (fun c => decide (c.country = "Spain"))).take 8).map coldSuggestion ∧
    ((((buildCandidates ["Spain"] cexCatalog).filter
        (fun c => decide (c.country = "Spain"))).take 8).map coldSuggestion).length ≤ 8 ∧
    ∀ s ∈ (((buildCandidates ["Spain"] cexCatalog).filter
        (fun c => decide (c.country = "Spain"))).take 8).map coldSuggestion,
      s.score = 0.10 ∧ s.reason = "No past trips yet — showing starter cities." := by
  refine C2_cold_start [] ["Spain"] cexCatalog ("Spain") _ rfl ?_
  have hbranch : suggestionsOf (apiSuggestions [] ["Spain"] cexCatalog) =
      coldStartOut (buildCandidates ["Spain"] cexCatalog) := by
    unfold apiSuggestions
    rw [if_neg (by decide), if_neg (by decide),
      if_pos (show visitedDocs [] = [] from rfl)]
    rfl
  rw [hbranch, lookup_coldStartOut, if_pos (by decide)]

/-! ## Claim C7 -/

/-- C7: every suggestion any request produces has a score in [0, 1]: ranked
scores are cosine similarities of entrywise non-negative tf×idf vectors
(dot product over the product of magnitudes, 0 on zero magnitude), and the
cold-start constant 0.10 also lies in the interval. -/
theorem C7_scores_in_unit_interval (trips : List Trip) (planned : List String)
    (catalog : List (String × List String)) (s : Suggestion)
    (hs : s ∈ allSuggestions (apiSuggestions trips planned catalog)) :
    0 ≤ s.score ∧ s.score ≤ 1 := by
  by_cases hcat : catalog = []
  · rw [show apiSuggestions trips planned catalog =
        .clientError 400 "Missing or empty static/data/country_cities.json" from by
      unfold apiSuggestions
      rw [if_pos hcat]] at hs
    simp [allSuggestions] at hs
  · by_cases hcands : buildCandidates planned catalog = []
    · rw [show apiSuggestions trips planned catalog =
          .ok [] (some ("No candidates found for your planned countries. " ++
            "Add cities in static/data/country_cities.json.")) from by
        unfold apiSuggestions
        rw [if_neg hcat, if_pos hcands]] at hs
      simp [allSuggestions] at hs
    · by_cases hprof : visitedDocs trips = []
      · have hbranch : allSuggestions (apiSuggestions trips planned catalog) =
            (coldStartOut (buildCandidates planned catalog)).flatMap fun kv => kv.2 := by
          unfold apiSuggestions
          rw [if_neg hcat, if_neg hcands, if_pos hprof]
          rfl
        rw [hbranch] at hs
        unfold coldStartOut at hs
        obtain ⟨kv, hkv, hsin⟩ := List.mem_flatMap.mp hs
        obtain ⟨kv₀, hkv₀, rfl⟩ := List.mem_map.mp hkv
        have hsin' : s ∈ kv₀.2 := List.mem_of_mem_take hsin
        have hs2 : s ∈ (((buildCandidates planned catalog).foldl
            (fun out c => insertAppend out c.country (coldSuggestion c)) []).flatMap
              fun kv => kv.2) :=
          List.mem_flatMap.mpr ⟨kv₀, hkv₀, hsin'⟩
        rcases mem_snd_foldl_append _ _ _ hs2 with h | h
        · simp at h
        · obtain ⟨c, hc, rfl⟩ := h
          constructor
          · show (0:ℝ) ≤ 0.10
            norm_num
          · show (0.10:ℝ) ≤ 1
            norm_num
      · have hbranch : allSuggestions (apiSuggestions trips planned catalog) =
            (rankedOut (scoredOf trips planned catalog)).flatMap fun kv => kv.2 := by
          unfold apiSuggestions
          rw [if_neg hcat, if_neg hcands, if_neg hprof]
          rfl
        rw [hbranch] at hs
        unfold rankedOut at hs
        rcases mem_snd_foldl_cap _ _ _ hs with h | h
        · simp at h
        · obtain ⟨p, hp, rfl⟩ := h
          have hpz := List.mem_mergeSort.mp hp
          have hsim : p.2 ∈ simScores (visitedDocs trips)
              ((buildCandidates planned catalog).map Candidate.doc) := by
            have := List.of_mem_zip (show (p.1, p.2) ∈ _ from hpz)
            exact this.2
          exact simScores_mem_unit _ _ _ hsim

/-- C7 witness: the cold-start suggestion of a concrete request. -/
theorem C7_scores_in_unit_interval_witness :
    0 ≤ (coldSuggestion ⟨"Spain", "Granada", "Spain Granada"⟩).score ∧
    (coldSuggestion ⟨"Spain", "Granada", "Spain Granada"⟩).score ≤ 1 := by
  refine C7_scores_in_unit_interval [] ["Spain"] cexCatalog _ ?_
  simp [apiSuggestions, cexCatalog, buildCandidates, catalogGet, visitedDocs,
    coldStartOut, insertAppend, allSuggestions]

/-! ## Claim C4 -/

/-- C4 counterexample: a city already visited on a recorded trip CAN be
suggested again.  With one trip to Spain that includes Granada and Spain
still planned, the only suggestion produced is Granada — which occurs among
the cities of a trip in the history. -/
theorem C4_unvisited_cex :
    suggPairs (apiSuggestions [cexTrip] ["Spain"] cexCatalog) = [("Spain", "Granada")] ∧
    "Granada" ∈ cexTrip.cities := by
  constructor
  · have h : tripDoc ⟨"Spain", ["Granada"], "", []⟩ = "Spain Granada" := by decide
    simp [apiSuggestions, cexCatalog, cexTrip, buildCandidates, catalogGet, visitedDocs, h,
      simScores, rankedOut, insertAppendCap, suggPairs, mkSuggestion]
  · decide

/-- C4 (amended): the code applies no unvisited-city filter at all — what it
does guarantee is that every suggested (country, city) pair is a planned
country together with one of that country's catalog cities, whether or not
the city already occurs in the trip history. -/
theorem C4_suggestions_from_catalog (trips : List Trip) (planned : List String)
    (catalog : List (String × List String)) (pr : String × String)
    (hpr : pr ∈ suggPairs (apiSuggestions trips planned catalog)) :
    pr.1 ∈ planned ∧ pr.2 ∈ catalogGet catalog pr.1 := by
  by_cases hcat : catalog = []
  · rw [show apiSuggestions trips planned catalog =
        .clientError 400 "Missing or empty static/data/country_cities.json" from by
      unfold apiSuggestions
      rw [if_pos hcat]] at hpr
    simp [suggPairs] at hpr
  · by_cases hcands : buildCandidates planned catalog = []
    · rw [show apiSuggestions trips planned catalog =
          .ok [] (some ("No candidates found for your planned countries. " ++
            "Add cities in static/data/country_cities.json.")) from by
        unfold apiSuggestions
        rw [if_neg hcat, if_pos hcands]] at hpr
      simp [suggPairs] at hpr
    · by_cases hprof : visitedDocs trips = []
      · -- cold-start branch
        have hbranch : suggPairs (apiSuggestions trips planned catalog) =
            (coldStartOut (buildCandidates planned catalog)).flatMap
              fun kv => kv.2.map fun s => (kv.1, s.city) := by
          unfold apiSuggestions
          rw [if_neg hcat, if_neg hcands, if_pos hprof]
          rfl
        rw [hbranch] at hpr
        obtain ⟨kv, hkv, hin⟩ := List.mem_flatMap.mp hpr
        obtain ⟨s, hsin, rfl⟩ := List.mem_map.mp hin
        -- identify the bucket through its key
        have hnd : ((coldStartOut (buildCandidates planned catalog)).map Prod.fst).Nodup := by
          unfold coldStartOut
          rw [List.map_map]
          have : ((buildCandidates planned catalog).foldl
              (fun out c => insertAppend out c.country (coldSuggestion c)) []).map
                Prod.fst |>.Nodup :=
            nodup_map_fst_foldl_append _ [] (by simp)
          simpa [Function.comp] using this
        have hlook := lookup_of_mem_of_nodup_keys _ kv.1 kv.2 hnd
          (by simpa using hkv)
        rw [lookup_coldStartOut] at hlook
        by_cases hm : kv.1 ∈ (buildCandidates planned catalog).map Candidate.country
        · rw [if_pos hm] at hlook
          have hv2 : kv.2 = (((buildCandidates planned catalog).filter
              (fun c => decide (c.country = kv.1))).take 8).map coldSuggestion :=
            Option.some.inj hlook.symm
          rw [hv2] at hsin
          obtain ⟨c, hcin, rfl⟩ := List.mem_map.mp hsin
          have hcin' : c ∈ (buildCandidates planned catalog).filter
              (fun c => decide (c.country = kv.1)) := List.mem_of_mem_take hcin
          have hcf := List.mem_filter.mp hcin'
          have hcountry : c.country = kv.1 := of_decide_eq_true hcf.2
          have hmm := mem_buildCandidates _ _ _ hcf.1
          refine ⟨?_, ?_⟩
          · exact hcountry ▸ hmm.1
          · show c.city ∈ catalogGet catalog kv.1
            exact hcountry ▸ hmm.2.1
        · rw [if_neg hm] at hlook
          simp at hlook
      · -- ranked branch
        have hbranch : suggPairs (apiSuggestions trips planned catalog) =
            (rankedOut (scoredOf trips planned catalog)).flatMap
              fun kv => kv.2.map fun s => (kv.1, s.city) := by
          unfold apiSuggestions
          rw [if_neg hcat, if_neg hcands, if_neg hprof]
          rfl
        rw [hbranch] at hpr
        obtain ⟨kv, hkv, hin⟩ := List.mem_flatMap.mp hpr
        obtain ⟨s, hsin, rfl⟩ := List.mem_map.mp hin
        have hnd : ((rankedOut (scoredOf trips planned catalog)).map Prod.fst).Nodup := by
          unfold rankedOut
          exact nodup_map_fst_foldl_cap _ [] (by simp)
        have hlook := lookup_of_mem_of_nodup_keys _ kv.1 kv.2 hnd (by simpa using hkv)
        rw [lookup_rankedOut] at hlook
        by_cases hm : kv.1 ∈ ((scoredOf trips planned catalog).mergeSort descBy).map
            (fun p => p.1.country)
        · rw [if_pos hm] at hlook
          have hv2 : kv.2 = ((((scoredOf trips planned catalog).mergeSort descBy).filter
              (fun p => decide (p.1.country = kv.1))).take 8).map mkSuggestion :=
            Option.some.inj hlook.symm
          rw [hv2] at hsin
          obtain ⟨p, hpin, rfl⟩ := List.mem_map.mp hsin
          have hpin' := List.mem_of_mem_take hpin
          have hpf := List.mem_filter.mp hpin'
          have hcountry : p.1.country = kv.1 := of_decide_eq_true hpf.2
          have hpz := List.mem_mergeSort.mp hpf.1
          have hcand : p.1 ∈ buildCandidates planned catalog :=
            (List.of_mem_zip (show (p.1, p.2) ∈ _ from hpz)).1
          have hmm := mem_buildCandidates _ _ _ hcand
          refine ⟨?_, ?_⟩
          · exact hcountry ▸ hmm.1
          · show p.1.city ∈ catalogGet catalog kv.1
            exact hcountry ▸ hmm.2.1
        · rw [if_neg hm] at hlook
          simp at hlook

/-- C4 witness for the amended claim, at a concrete cold-start request. -/
theorem C4_suggestions_from_catalog_witness :
    ("Spain", "Granada").1 ∈ ["Spain"] ∧
    ("Spain", "Granada").2 ∈ catalogGet cexCatalog ("Spain", "Granada").1 := by
  refine C4_suggestions_from_catalog [] ["Spain"] cexCatalog (("Spain", "Granada")) ?_
  simp [apiSuggestions, cexCatalog, buildCandidates, catalogGet, visitedDocs,
    coldStartOut, insertAppend, suggPairs, coldSuggestion]

/-! ## Claim C6 -/

theorem mem_of_lookup_eq_some (l : List (String × List String)) (a : String)
    (b : List String) (h : List.lookup a l = some b) : (a, b) ∈ l := by
  induction l with
  | nil => simp at h
  | cons kv rest ih =>
      obtain ⟨k, v⟩ := kv
      rw [List.lookup_cons] at h
      by_cases hk : a = k
      · subst hk
        simp at h
        simp [h]
      · have hb : (a == k) = false := beq_eq_false_iff_ne.mpr hk
        simp only [hb] at h
        exact List.mem_cons_of_mem _ (ih h)

theorem catalogGet_nodup (catalog : List (String × List String))
    (hcat : ∀ kv ∈ catalog, (kv.2 : List String).Nodup) (co : String) :
    (catalogGet catalog co).Nodup := by
  unfold catalogGet
  cases h : List.lookup co catalog with
  | none => simp
  | some v =>
      simp only [Option.getD_some]
      exact hcat (co, v) (mem_of_lookup_eq_some _ _ _ h)

theorem count_buildCandidates (planned : List String) (catalog : List (String × List String))
    (hnd : planned.Nodup) (co ci : String) :
    (buildCandidates planned catalog).count
        ⟨co, ci, co ++ " " ++ ci⟩ =
      if co ∈ planned then (catalogGet catalog co).count ci else 0 := by
  induction planned with
  | nil => simp [buildCandidates]
  | cons co' t ih =>
      have hnd' := List.nodup_cons.mp hnd
      have hsplit : buildCandidates (co' :: t) catalog =
          ((catalogGet catalog co').map fun city =>
            ⟨co', city, co' ++ " " ++ city⟩) ++ buildCandidates t catalog := by
        simp [buildCandidates]
      rw [hsplit, List.count_append]
      by_cases hco : co' = co
      · subst hco
        have hmapcount : ((catalogGet catalog co').map fun city =>
            (⟨co', city, co' ++ " " ++ city⟩ : Candidate)).count
              ⟨co', ci, co' ++ " " ++ ci⟩ = (catalogGet catalog co').count ci := by
          have hinj : Function.Injective fun city =>
              (⟨co', city, co' ++ " " ++ city⟩ : Candidate) := by
            intro a b hab
            exact (Candidate.mk.injEq _ _ _ _ _ _ ▸ hab).2.1
          exact List.count_map_of_injective _ _ hinj _
        have hrest : (buildCandidates t catalog).count ⟨co', ci, co' ++ " " ++ ci⟩ = 0 := by
          rw [List.count_eq_zero]
          intro hmem
          have := (mem_buildCandidates _ _ _ hmem).1
          exact hnd'.1 this
        rw [hmapcount, hrest]
        simp
      · have hmapzero : ((catalogGet catalog co').map fun city =>
            (⟨co', city, co' ++ " " ++ city⟩ : Candidate)).count
              ⟨co, ci, co ++ " " ++ ci⟩ = 0 := by
          rw [List.count_eq_zero]
          intro hmem
          obtain ⟨city, hcity, hc⟩ := List.mem_map.mp hmem
          exact hco (Candidate.mk.injEq _ _ _ _ _ _ ▸ hc).1
        rw [hmapzero, ih hnd'.2]
        have : (co ∈ co' :: t) ↔ (co ∈ t) := by
          simp only [List.mem_cons]
          exact or_iff_right (fun hh => hco hh.symm)
        rw [if_congr this rfl rfl]
        omega

theorem filter_buildCandidates (planned : List String) (catalog : List (String × List String))
    (hnd : planned.Nodup) (co : String) :
    (buildCandidates planned catalog).filter (fun c => decide (c.country = co)) =
      if co ∈ planned then
        (catalogGet catalog co).map fun ci => ⟨co, ci, co ++ " " ++ ci⟩
      else [] := by
  induction planned with
  | nil => simp [buildCandidates]
  | cons co' t ih =>
      have hnd' := List.nodup_cons.mp hnd
      have hsplit : buildCandidates (co' :: t) catalog =
          ((catalogGet catalog co').map fun city =>
            ⟨co', city, co' ++ " " ++ city⟩) ++ buildCandidates t catalog := by
        simp [buildCandidates]
      rw [hsplit, List.filter_append]
      by_cases hco : co' = co
      · subst hco
        have hkeep : ((catalogGet catalog co').map fun city =>
            (⟨co', city, co' ++ " " ++ city⟩ : Candidate)).filter
              (fun c => decide (c.country = co')) =
            (catalogGet catalog co').map fun city => ⟨co', city, co' ++ " " ++ city⟩ := by
          rw [List.filter_eq_self]
          intro c hc
          obtain ⟨city, hcity, rfl⟩ := List.mem_map.mp hc
          simp
        have hdrop : (buildCandidates t catalog).filter
            (fun c => decide (c.country = co')) = [] := by
          rw [List.filter_eq_nil_iff]
          intro c hc hdec
          have := (mem_buildCandidates _ _ _ hc).1
          rw [of_decide_eq_true hdec] at this
          exact hnd'.1 this
        rw [hkeep, hdrop, List.append_nil]
        simp
      · have hdropmap : ((catalogGet catalog co').map fun city =>
            (⟨co', city, co' ++ " " ++ city⟩ : Candidate)).filter
              (fun c => decide (c.country = co)) = [] := by
          rw [List.filter_eq_nil_iff]
          intro c hc hdec
          obtain ⟨city, hcity, rfl⟩ := List.mem_map.mp hc
          exact hco (of_decide_eq_true hdec)
        rw [hdropmap, List.nil_append, ih hnd'.2]
        have : (co ∈ co' :: t) ↔ (co ∈ t) := by
          simp only [List.mem_cons]
          exact or_iff_right (fun hh => hco hh.symm)
        rw [if_congr this rfl rfl]

/-- C6: for a duplicate-free planned list and a normalised catalog (its city
lists are duplicate-free), the candidate list has exactly one entry per
(country, city) pair with city known for a planned country, every candidate's
document is `"{country} {city}"`, catalog order is preserved within a
country, planned countries are iterated in their given order, and a planned
country absent from the catalog contributes zero candidates without error. -/
theorem C6_candidate_generator (planned : List String)
    (catalog : List (String × List String)) (hnd : planned.Nodup)
    (hcat : ∀ kv ∈ catalog, (kv.2 : List String).Nodup) :
    (∀ c ∈ buildCandidates planned catalog,
        c.doc = c.country ++ " " ++ c.city ∧ c.country ∈ planned ∧
          c.city ∈ catalogGet catalog c.country) ∧
    (∀ co ci, (buildCandidates planned catalog).count ⟨co, ci, co ++ " " ++ ci⟩ =
        if co ∈ planned ∧ ci ∈ catalogGet catalog co then 1 else 0) ∧
    (∀ co, (buildCandidates planned catalog).filter (fun c => decide (c.country = co)) =
        if co ∈ planned then
          (catalogGet catalog co).map fun ci => ⟨co, ci, co ++ " " ++ ci⟩
        else []) ∧
    ((buildCandidates planned catalog).map Candidate.country =
        planned.flatMap fun co => List.replicate (catalogGet catalog co).length co) := by
  refine ⟨?_, ?_, fun co => filter_buildCandidates planned catalog hnd co, ?_⟩
  · intro c hc
    have h := mem_buildCandidates _ _ _ hc
    exact ⟨h.2.2, h.1, h.2.1⟩
  · intro co ci
    rw [count_buildCandidates planned catalog hnd co ci]
    by_cases hco : co ∈ planned
    · by_cases hci : ci ∈ catalogGet catalog co
      · rw [if_pos hco, if_pos ⟨hco, hci⟩]
        exact List.count_eq_one_of_mem (catalogGet_nodup catalog hcat co) hci
      · rw [if_pos hco, if_neg (fun h => hci h.2)]
        exact List.count_eq_zero.mpr hci
    · rw [if_neg hco, if_neg (fun h => hco h.1)]
  · unfold buildCandidates
    rw [List.map_flatMap]
    refine List.flatMap_congr ?_
    intro co hco
    rw [List.map_map]
    have : (Candidate.country ∘ fun city =>
        (⟨co, city, co ++ " " ++ city⟩ : Candidate)) = fun _ => co := rfl
    rw [this]
    exact List.map_const' _ co

/-- C6 witness: the multiplicity property at a concrete pair. -/
theorem C6_candidate_generator_witness :
    (buildCandidates ["Spain"] cexCatalog).count
        ⟨"Spain", "Granada", "Spain" ++ " " ++ "Granada"⟩ =
      if "Spain" ∈ ["Spain"] ∧ "Granada" ∈ catalogGet cexCatalog ("Spain") then 1 else 0 :=
  (C6_candidate_generator ["Spain"] cexCatalog (by decide) (by decide)).2.1 ("Spain") ("Granada")

/-! ## Claim C1 -/

theorem descBy_trans (a b c : Candidate × ℝ) (hab : descBy a b = true)
    (hbc : descBy b c = true) : descBy a c = true := by
  unfold descBy at *
  simp only [decide_eq_true_eq] at *
  exact le_trans hbc hab

theorem descBy_total (a b : Candidate × ℝ) : (descBy a b || descBy b a) = true := by
  unfold descBy
  rcases le_total a.2 b.2 with h | h <;> simp [h]

/-- Stability of the ranked sort: elements whose scores are equal keep their
original relative order (each tie class comes out of the sort exactly as it
went in). -/
theorem filter_tie_mergeSort (l : List (Candidate × ℝ)) (x : ℝ) :
    (l.mergeSort descBy).filter (fun p => decide (p.2 = x)) =
      l.filter (fun p => decide (p.2 = x)) := by
  have hApw : (l.filter fun p => decide (p.2 = x)).Pairwise
      (fun a b => descBy a b = true) :=
    List.pairwise_of_forall_mem_list (fun a ha b hb => by
      have hax : a.2 = x := of_decide_eq_true (List.mem_filter.mp ha).2
      have hbx : b.2 = x := of_decide_eq_true (List.mem_filter.mp hb).2
      unfold descBy
      simp [hax, hbx])
  have hsubA : List.Sublist (l.filter fun p => decide (p.2 = x)) (l.mergeSort descBy) :=
    List.sublist_mergeSort descBy_trans descBy_total hApw (List.filter_sublist l)
  have hAfix : (l.filter fun p => decide (p.2 = x)).filter (fun p => decide (p.2 = x)) =
      l.filter fun p => decide (p.2 = x) :=
    List.filter_eq_self.mpr (fun a ha => (List.mem_filter.mp ha).2)
  have hsub2 := List.Sublist.filter (fun p => decide (p.2 = x)) hsubA
  rw [hAfix] at hsub2
  have hperm : ((l.mergeSort descBy).filter fun p => decide (p.2 = x)).Perm
      (l.filter fun p => decide (p.2 = x)) :=
    List.Perm.filter _ (List.mergeSort_perm l descBy)
  exact (List.Sublist.eq_of_length hsub2 hperm.length_eq.symm).symm

/-- C1: with a non-empty traveler profile, every per-country list of the
suggestions output holds at most 8 records, is sorted by score descending,
equals the first 8 of that country's candidates in the stable
score-descending order (ties keep generation order: every tie class of the
sort is unchanged), covers all of the country's candidates up to the cap
(permutation fact), and dominates every candidate it leaves out — i.e. it is
the true top-8 of its candidates by score. -/
theorem C1_ranked_top8 (trips : List Trip) (planned : List String)
    (catalog : List (String × List String)) (k : String) (vs : List Suggestion)
    (hprof : visitedDocs trips ≠ [])
    (hlook : List.lookup k (suggestionsOf (apiSuggestions trips planned catalog)) = some vs) :
    vs.length ≤ 8 ∧
    vs.Pairwise (fun a b => b.score ≤ a.score) ∧
    vs = ((((scoredOf trips planned catalog).mergeSort descBy).filter
        (fun p => decide (p.1.country = k))).take 8).map mkSuggestion ∧
    (((scoredOf trips planned catalog).mergeSort descBy).filter
        (fun p => decide (p.1.country = k))).Perm
      ((scoredOf trips planned catalog).filter (fun p => decide (p.1.country = k))) ∧
    (∀ p ∈ (((scoredOf trips planned catalog).mergeSort descBy).filter
        (fun p => decide (p.1.country = k))).drop 8, ∀ s ∈ vs, p.2 ≤ s.score) ∧
    (∀ x : ℝ, ((scoredOf trips planned catalog).mergeSort descBy).filter
        (fun p => decide (p.2 = x)) =
      (scoredOf trips planned catalog).filter (fun p => decide (p.2 = x))) := by
  by_cases hcat : catalog = []
  · rw [show apiSuggestions trips planned catalog =
        .clientError 400 "Missing or empty static/data/country_cities.json" from by
      unfold apiSuggestions
      rw [if_pos hcat]] at hlook
    simp [suggestionsOf] at hlook
  · by_cases hcands : buildCandidates planned catalog = []
    · rw [show apiSuggestions trips planned catalog =
          .ok [] (some ("No candidates found for your planned countries. " ++
            "Add cities in static/data/country_cities.json.")) from by
        unfold apiSuggestions
        rw [if_neg hcat, if_pos hcands]] at hlook
      simp [suggestionsOf] at hlook
    · have hbranch : suggestionsOf (apiSuggestions trips planned catalog) =
          rankedOut (scoredOf trips planned catalog) := by
        unfold apiSuggestions
        rw [if_neg hcat, if_neg hcands, if_neg hprof]
        rfl
      rw [hbranch, lookup_rankedOut] at hlook
      by_cases hm : k ∈ ((scoredOf trips planned catalog).mergeSort descBy).map
          (fun p => p.1.country)
      · rw [if_pos hm] at hlook
        have hvs : vs = ((((scoredOf trips planned catalog).mergeSort descBy).filter
            (fun p => decide (p.1.country = k))).take 8).map mkSuggestion :=
          (Option.some.inj hlook).symm
        have hsorted : ((scoredOf trips planned catalog).mergeSort descBy).Pairwise
            (fun a b => descBy a b = true) :=
          List.sorted_mergeSort descBy_trans descBy_total _
        have hFpw : (((scoredOf trips planned catalog).mergeSort descBy).filter
            (fun p => decide (p.1.country = k))).Pairwise (fun a b => descBy a b = true) :=
          List.Pairwise.filter _ hsorted
        refine ⟨?_, ?_, hvs, ?_, ?_, fun x => filter_tie_mergeSort _ x⟩
        · rw [hvs]
          simp only [List.length_map]
          exact List.length_take_le _ _
        · rw [hvs]
          rw [List.pairwise_map]
          refine List.Pairwise.imp ?_
            (List.Pairwise.sublist (List.take_sublist _ _) hFpw)
          intro a b hab
          exact of_decide_eq_true hab
        · exact List.Perm.filter _ (List.mergeSort_perm _ _)
        · intro p hp s hs
          rw [hvs] at hs
          obtain ⟨a, ha, rfl⟩ := List.mem_map.mp hs
          have hsplit := hFpw
          rw [← List.take_append_drop 8 (((scoredOf trips planned catalog).mergeSort
            descBy).filter (fun p => decide (p.1.country = k)))] at hsplit
          have hdom := (List.pairwise_append.mp hsplit).2.2 a ha p hp
          exact of_decide_eq_true hdom
      · rw [if_neg hm] at hlook
        simp at hlook

/-- C1 witness: the concrete single-candidate ranked request. -/
theorem C1_ranked_top8_witness :
    w1Bucket.length ≤ 8 ∧
    w1Bucket.Pairwise (fun a b => b.score ≤ a.score) ∧
    w1Bucket = ((((scoredOf [cexTrip] ["Spain"] cexCatalog).mergeSort descBy).filter
        (fun p => decide (p.1.country = "Spain"))).take 8).map mkSuggestion ∧
    (((scoredOf [cexTrip] ["Spain"] cexCatalog).mergeSort descBy).filter
        (fun p => decide (p.1.country = "Spain"))).Perm
      ((scoredOf [cexTrip] ["Spain"] cexCatalog).filter
        (fun p => decide (p.1.country = "Spain"))) ∧
    (∀ p ∈ (((scoredOf [cexTrip] ["Spain"] cexCatalog).mergeSort descBy).filter
        (fun p => decide (p.1.country = "Spain"))).drop 8, ∀ s ∈ w1Bucket, p.2 ≤ s.score) ∧
    (∀ x : ℝ, ((scoredOf [cexTrip] ["Spain"] cexCatalog).mergeSort descBy).filter
        (fun p => decide (p.2 = x)) =
      (scoredOf [cexTrip] ["Spain"] cexCatalog).filter (fun p => decide (p.2 = x))) := by
  refine C1_ranked_top8 [cexTrip] ["Spain"] cexCatalog ("Spain") w1Bucket (by decide) ?_
  have hbranch : suggestionsOf (apiSuggestions [cexTrip] ["Spain"] cexCatalog) =
      rankedOut (scoredOf [cexTrip] ["Spain"] cexCatalog) := by
    unfold apiSuggestions
    rw [if_neg (by decide), if_neg (by decide), if_neg (by decide)]
    rfl
  have hmem : "Spain" ∈ ((scoredOf [cexTrip] ["Spain"] cexCatalog).mergeSort descBy).map
      (fun p => p.1.country) := by
    have htd : tripDoc ⟨"Spain", ["Granada"], "", []⟩ = "Spain Granada" := by decide
    rw [List.Perm.mem_iff (List.Perm.map _ (List.mergeSort_perm _ _))]
    simp [scoredOf, cexCatalog, cexTrip, buildCandidates, catalogGet, visitedDocs, htd,
      simScores]
  rw [hbranch, lookup_rankedOut, if_pos hmem]
  rfl
